import Mathlib

/-!
# Verification of the CDA_Project travel-time / signal-matrix core

The repository's notebook (`CDA_Project.ipynb`) drives two pieces of core
logic that live in its `data_generation` module:
`gen.arrival_time.travel_times` (direct-P / depth-phase travel times) and
`gen.matrix.generate_matrix` (synthetic per-station signal matrix).  The
module itself is not part of the checked-in sources, so each definition
below is modelled from the specification (`spec.md`, §3, §4.1, §4.2), and
the notebook's call sites fix the signatures:
`travel_times(source_lat, source_lon, source_depth, station_lat, station_lon)`
returning `(P, pP, sP)`, and
`generate_matrix(num_stations, depth, rand_inactive)` returning
`(signal_matrix, depth, station metadata)`.
-/

namespace CDA

noncomputable section

/-! ## Travel-time calculator (spec §4.1) -/

/-- Modelled from the spec: P-wave velocity of the simplified constant-velocity
Earth model (m/s).  The concrete value is representative; only `0 < vS < vP`
matters for the stated properties. -/
def vP : ℝ := 8000

/-- Modelled from the spec: S-wave velocity of the simplified constant-velocity
Earth model (m/s), slower than the P velocity. -/
def vS : ℝ := 4600

/-- Modelled from the spec: mean Earth radius (m), used to convert the
great-circle central angle into an epicentral distance. -/
def earthRadius : ℝ := 6371000

/-- Modelled from the spec: great-circle epicentral distance between the
surface point above the source and the station, via the spherical law of
cosines.  `Real.arccos` is total and lands in `[0, π]`, so the distance is
always a well-defined nonnegative real (spec §7: degenerate geometry must
not produce undefined values). -/
def epicentralDistance (lat1 lon1 lat2 lon2 : ℝ) : ℝ :=
  earthRadius *
    Real.arccos (Real.sin lat1 * Real.sin lat2 +
      Real.cos lat1 * Real.cos lat2 * Real.cos (lon1 - lon2))

/-- Modelled from the spec: direct P travel time for the straight ray of a
source at depth `d` below the surface and a station at epicentral distance
`delta`, through the constant-velocity model. -/
def P_time (delta d : ℝ) : ℝ := Real.sqrt (delta ^ 2 + d ^ 2) / vP

/-- Modelled from the spec: pP depth-phase time — the direct time plus the
extra path of a ray that travels from the source straight up to the surface
(`d` at the P velocity) and reflects downward, retracing that leg (`d` at the
P velocity) before following the same onward path as the direct ray. -/
def pP_time (delta d : ℝ) : ℝ := P_time delta d + d / vP + d / vP

/-- Modelled from the spec: sP depth-phase time — as `pP_time`, but the
up-going reflected leg travels at the slower S velocity (`d / vS`), the
reflected down-going conversion back at the P velocity. -/
def sP_time (delta d : ℝ) : ℝ := P_time delta d + d / vS + d / vP

/-- Modelled from the spec: distance-parametrised core of the travel-time
calculator, returning the triple `(P, pP, sP)` of absolute times (s). -/
def travelTimesDist (delta d : ℝ) : ℝ × ℝ × ℝ :=
  (P_time delta d, pP_time delta d, sP_time delta d)

/-- Modelled from the spec: the calculator called by the notebook as
`gen.arrival_time.travel_times(source_lat, source_lon, source_depth,
station_lat, station_lon)`, returning `(P, pP, sP)`. -/
def travel_times (sourceLat sourceLon sourceDepth stationLat stationLon : ℝ) :
    ℝ × ℝ × ℝ :=
  travelTimesDist (epicentralDistance sourceLat sourceLon stationLat stationLon)
    sourceDepth

/-- The derived depth-phase delay `tpP = pP − P` computed by the notebook. -/
def tpP (sourceLat sourceLon sourceDepth stationLat stationLon : ℝ) : ℝ :=
  (travel_times sourceLat sourceLon sourceDepth stationLat stationLon).2.1 -
    (travel_times sourceLat sourceLon sourceDepth stationLat stationLon).1

/-- The derived depth-phase delay `tsP = sP − P` computed by the notebook. -/
def tsP (sourceLat sourceLon sourceDepth stationLat stationLon : ℝ) : ℝ :=
  (travel_times sourceLat sourceLon sourceDepth stationLat stationLon).2.2 -
    (travel_times sourceLat sourceLon sourceDepth stationLat stationLon).1

/-! ## Randomness (spec §5, §9: explicitly seedable generator scoped to the call) -/

/-- Modelled from the spec: the explicitly seedable random generator (spec §9
asks for "an explicitly passed, seedable generator instance"); a standard
32-bit linear congruential step. -/
def lcg (s : ℕ) : ℕ := (1664525 * s + 1013904223) % 4294967296

/-- Modelled from the spec: a uniform variate in `[0, 1)` drawn from the
seeded generator. -/
def unit01 (s : ℕ) : ℝ := (lcg s : ℝ) / 4294967296

/-! ## Configuration constants (spec §3, §4.2) -/

/-- Modelled from the spec: maximum valid source depth (m); spec §4.1 gives
"e.g. ≤ 700 km" as the configured velocity-model validity bound. -/
def maxDepth : ℝ := 700000

/-- Modelled from the spec: the configured station footprint — the maximum
epicentral distance (m) at which random stations are placed. -/
def maxDist : ℝ := 1000000

/-- Modelled from the spec: the fixed column count of the Signal Matrix
(time samples at the fixed 20 Hz sampling rate; 60 s window). -/
def numCols : ℕ := 1200

/-- Modelled from the spec: the fixed sampling rate (Hz) of the traces. -/
def samplingRate : ℕ := 20

/-- Modelled from the spec: the fixed reference column at which every row's
direct P arrival is aligned. -/
def alignCol : ℕ := 100

/-- Modelled from the spec: depth drawn uniformly at random within the
configured bound when the caller passes no explicit depth. -/
def drawDepth (seed : ℕ) : ℝ := maxDepth * unit01 seed

/-- Modelled from the spec: random station position within the configured
footprint, reduced to its epicentral distance from the source. -/
def stationDistance (seed i : ℕ) : ℝ := maxDist * unit01 (seed + i + 1)

/-! ## Trace synthesis and Z-normalization (spec §4.2 steps 2–3) -/

/-- Modelled from the spec: sample columns of the superposed energetic
pulses — the direct P at the fixed alignment column, the pP and sP pulses
offset by their depth-phase delays converted to samples. -/
def pulseCols (delta d : ℝ) : List ℕ :=
  [alignCol,
   alignCol + ⌊(pP_time delta d - P_time delta d) * samplingRate⌋₊,
   alignCol + ⌊(sP_time delta d - P_time delta d) * samplingRate⌋₊]

/-- Modelled from the spec: the raw synthetic trace of a station at
epicentral distance `delta` for a source at depth `d` — unit pulses at the
P/pP/sP sample columns, zero elsewhere, aligned so that the direct P pulse
lands at the fixed reference column. -/
def rawTrace (delta d : ℝ) : List ℝ :=
  (List.range numCols).map (fun j => if j ∈ pulseCols delta d then 1 else 0)

/-- Sample mean of a row. -/
def listMean (xs : List ℝ) : ℝ := xs.sum / xs.length

/-- Sample (population) variance of a row. -/
def listVar (xs : List ℝ) : ℝ :=
  ((xs.map fun x => (x - listMean xs) ^ 2).sum) / xs.length

/-- Sample standard deviation of a row. -/
def listStd (xs : List ℝ) : ℝ := Real.sqrt (listVar xs)

/-- Modelled from the spec: Z-normalization of a row trace (zero mean, unit
variance; spec §4.2 step 3). -/
def znormalize (xs : List ℝ) : List ℝ :=
  xs.map fun x => (x - listMean xs) / listStd xs

/-- Modelled from the spec: the fixed sentinel row for inactive stations
(all-zero; spec §4.2 step 4). -/
def zeroRow : List ℝ := List.replicate numCols 0

/-! ## Matrix assembly (spec §4.2 steps 1, 4–5) -/

/-- Modelled from the spec: the set of station indices marked inactive per
the dropout parameter — a seed-dependent window of `k` indices (mod `n`). -/
def inactiveIdx (seed n k : ℕ) : Finset ℕ :=
  (Finset.range k).image fun j => (seed % n + j) % n

/-- Modelled from the spec: per-station metadata generated for one call —
the epicentral distance of each randomly placed station, paired with its
activity flag (spec §4.2 steps 1 and 4). -/
def stationsRaw (seed n k : ℕ) : List (ℝ × Bool) :=
  (List.range n).map fun i => (stationDistance seed i, decide (i ∉ inactiveIdx seed n k))

/-- Row order relation: ascending source-to-station distance. -/
def distLE (a b : ℝ × Bool) : Prop := a.1 ≤ b.1

instance : DecidableRel distLE := fun a b => inferInstanceAs (Decidable (a.1 ≤ b.1))

instance : IsTotal (ℝ × Bool) distLE := ⟨fun a b => le_total a.1 b.1⟩

instance : IsTrans (ℝ × Bool) distLE := ⟨fun _ _ _ h h' => le_trans h h'⟩

/-- Modelled from the spec: sort the stations by ascending source-to-station
distance before assembling rows (spec §4.2 step 5). -/
def sortStations (l : List (ℝ × Bool)) : List (ℝ × Bool) :=
  l.insertionSort distLE

/-- Modelled from the spec: the matrix row of one station — the Z-normalized
aligned trace when the station is active, the fixed all-zero sentinel row
when it is inactive (kept in place, not removed). -/
def rowOf (d : ℝ) (st : ℝ × Bool) : List ℝ :=
  if st.2 then znormalize (rawTrace st.1 d) else zeroRow

/-- The output triple of one successful generation call: the Signal Matrix,
the source depth used, and the per-station metadata (spec §4.2 Output). -/
structure GenOutput where
  matrix : List (List ℝ)
  depth : ℝ
  stations : List (ℝ × Bool)

/-- Input-validation errors of the generator (spec §4.2 Failure conditions). -/
inductive GenError where
  | invalidStationCount
  | invalidDropout
  | invalidDepth
deriving DecidableEq

/-- Modelled from the spec: generation on validated inputs — place `n`
random stations, mark `k` of them inactive, sort by distance, and emit one
row per station. -/
def generateCore (n k : ℕ) (d : ℝ) (seed : ℕ) : GenOutput :=
  ⟨(sortStations (stationsRaw seed n k)).map (rowOf d), d,
   sortStations (stationsRaw seed n k)⟩

/-- Modelled from the spec: `gen.matrix.generate_matrix(num_stations, depth,
rand_inactive)` with the call-scoped seed made explicit (spec §5).  Validates
station count, dropout and depth bounds before generating; on any validation
failure it returns only an error, never a partial matrix. -/
def generate_matrix (numStations : ℕ) (depth : Option ℝ) (randInactive seed : ℕ) :
    Except GenError GenOutput :=
  if numStations < 1 then .error .invalidStationCount
  else if numStations ≤ randInactive then .error .invalidDropout
  else
    match depth with
    | some d =>
        if 0 ≤ d ∧ d ≤ maxDepth then .ok (generateCore numStations randInactive d seed)
        else .error .invalidDepth
    | none => .ok (generateCore numStations randInactive (drawDepth seed) seed)

end

lemma tpP_eq (a b d c e : ℝ) : tpP a b d c e = d / vP + d / vP := by
  simp only [tpP, travel_times, travelTimesDist, pP_time]
  ring

lemma tsP_eq (a b d c e : ℝ) : tsP a b d c e = d / vS + d / vP := by
  simp only [tsP, travel_times, travelTimesDist, sP_time]
  ring

/-! ## Row statistics -/

lemma sum_map_sub_const (xs : List ℝ) (c : ℝ) :
    (xs.map fun x => x - c).sum = xs.sum - xs.length * c := by
  induction xs with
  | nil => simp
  | cons a l ih =>
      simp only [List.map_cons, List.sum_cons, ih, List.length_cons]
      push_cast
      ring

lemma listVar_nonneg (xs : List ℝ) : 0 ≤ listVar xs := by
  apply div_nonneg _ (Nat.cast_nonneg _)
  apply List.sum_nonneg
  intro x hx
  obtain ⟨y, _, rfl⟩ := List.mem_map.mp hx
  positivity

lemma eq_mean_of_listVar_eq_zero {xs : List ℝ} (hne : xs ≠ [])
    (h : listVar xs = 0) : ∀ x ∈ xs, x = listMean xs := by
  intro x hx
  have hlen : (0 : ℝ) < xs.length := by
    have := List.length_pos.mpr hne
    exact_mod_cast this
  have hsum : (xs.map fun y => (y - listMean xs) ^ 2).sum = 0 := by
    have := h
    rw [listVar, div_eq_zero_iff] at this
    rcases this with h' | h'
    · exact h'
    · exact absurd h' (by positivity)
  have hmem : (x - listMean xs) ^ 2 ∈ xs.map fun y => (y - listMean xs) ^ 2 :=
    List.mem_map_of_mem _ hx
  have hz : (x - listMean xs) ^ 2 = 0 :=
    List.all_zero_of_le_zero_le_of_sum_eq_zero
      (fun y hy => by
        obtain ⟨z, _, rfl⟩ := List.mem_map.mp hy
        positivity)
      hsum hmem
  have := pow_eq_zero_iff (n := 2) (by norm_num) |>.mp hz
  linarith

lemma listVar_ne_zero_of_listStd_ne_zero {xs : List ℝ} (h : listStd xs ≠ 0) :
    listVar xs ≠ 0 := fun hv => h (by rw [listStd, hv, Real.sqrt_zero])

lemma listStd_sq {xs : List ℝ} : listStd xs ^ 2 = listVar xs :=
  Real.sq_sqrt (listVar_nonneg xs)

lemma znormalize_mean_std {xs : List ℝ} (h : listStd xs ≠ 0) :
    listMean (znormalize xs) = 0 ∧ listStd (znormalize xs) = 1 := by
  have hvar : listVar xs ≠ 0 := listVar_ne_zero_of_listStd_ne_zero h
  have hne : xs ≠ [] := by
    rintro rfl
    exact hvar (by simp [listVar])
  have hlen : (0 : ℝ) < xs.length := by
    have := List.length_pos.mpr hne
    exact_mod_cast this
  have hsum : xs.sum = xs.length * listMean xs := by
    rw [listMean]
    field_simp
  have hmapsum : (xs.map fun x => (x - listMean xs) / listStd xs).sum = 0 := by
    have : (xs.map fun x => (x - listMean xs) / listStd xs)
        = (xs.map fun x => (x - listMean xs)).map fun y => y * (listStd xs)⁻¹ := by
      rw [List.map_map]
      exact List.map_congr_left fun x _ => by rw [Function.comp_apply, div_eq_mul_inv]
    rw [this, List.sum_map_mul_right]
    simp only [List.map_id']
    rw [sum_map_sub_const, hsum]
    ring
  have hmean : listMean (znormalize xs) = 0 := by
    rw [listMean, znormalize, hmapsum, zero_div]
  refine ⟨hmean, ?_⟩
  have hsq : (znormalize xs).map (fun y => (y - listMean (znormalize xs)) ^ 2)
      = xs.map fun x => (x - listMean xs) ^ 2 * (listVar xs)⁻¹ := by
    rw [hmean, znormalize, List.map_map]
    refine List.map_congr_left fun x _ => ?_
    rw [Function.comp_apply, sub_zero, div_pow, listStd_sq, div_eq_mul_inv]
  have hvarsum : (xs.map fun x => (x - listMean xs) ^ 2).sum
      = listVar xs * xs.length := by
    rw [listVar]
    field_simp
  have hvz : listVar (znormalize xs) = 1 := by
    rw [listVar, hsq, List.sum_map_mul_right, hvarsum, znormalize,
      List.length_map]
    field_simp
  rw [listStd, hvz, Real.sqrt_one]

/-! ## Raw-trace facts -/

lemma rawTrace_length (delta d : ℝ) : (rawTrace delta d).length = numCols := by
  simp [rawTrace]

lemma one_mem_rawTrace (delta d : ℝ) : (1 : ℝ) ∈ rawTrace delta d := by
  refine List.mem_map.mpr ⟨alignCol, List.mem_range.mpr ?_, ?_⟩
  · norm_num [alignCol, numCols]
  · simp [pulseCols]

lemma zero_mem_rawTrace (delta d : ℝ) : (0 : ℝ) ∈ rawTrace delta d := by
  refine List.mem_map.mpr ⟨0, List.mem_range.mpr (by norm_num [numCols]), ?_⟩
  have h0 : (0 : ℕ) ∉ pulseCols delta d := by
    intro h
    simp only [pulseCols, alignCol, List.mem_cons, List.not_mem_nil,
      or_false] at h
    omega
  simp [h0]

lemma rawTrace_entries_nonneg (delta d : ℝ) :
    ∀ x ∈ rawTrace delta d, 0 ≤ x := by
  intro x hx
  obtain ⟨j, _, rfl⟩ := List.mem_map.mp hx
  split <;> norm_num

lemma listMean_rawTrace_pos (delta d : ℝ) : 0 < listMean (rawTrace delta d) := by
  have hsum : (1 : ℝ) ≤ (rawTrace delta d).sum :=
    List.single_le_sum (rawTrace_entries_nonneg delta d) 1 (one_mem_rawTrace delta d)
  have hlen : ((rawTrace delta d).length : ℝ) = 1200 := by
    rw [rawTrace_length]; norm_num [numCols]
  rw [listMean, hlen]
  linarith

lemma listStd_rawTrace_ne_zero (delta d : ℝ) : listStd (rawTrace delta d) ≠ 0 := by
  intro h
  have hvar : listVar (rawTrace delta d) = 0 :=
    (Real.sqrt_eq_zero (listVar_nonneg _)).mp h
  have hne : rawTrace delta d ≠ [] := by
    intro he
    have := rawTrace_length delta d
    rw [he] at this
    simp [numCols] at this
  have h1 := eq_mean_of_listVar_eq_zero hne hvar 1 (one_mem_rawTrace delta d)
  have h0 := eq_mean_of_listVar_eq_zero hne hvar 0 (zero_mem_rawTrace delta d)
  linarith

lemma znormalize_rawTrace_ne_zeroRow (delta d : ℝ) :
    znormalize (rawTrace delta d) ≠ zeroRow := by
  intro h
  have hmem : (0 - listMean (rawTrace delta d)) / listStd (rawTrace delta d)
      ∈ znormalize (rawTrace delta d) :=
    List.mem_map_of_mem _ (zero_mem_rawTrace delta d)
  rw [h] at hmem
  have hz := List.eq_of_mem_replicate hmem
  rw [div_eq_zero_iff] at hz
  rcases hz with hz | hz
  · have := listMean_rawTrace_pos delta d
    linarith
  · exact listStd_rawTrace_ne_zero delta d hz

lemma rowOf_length (d : ℝ) (st : ℝ × Bool) : (rowOf d st).length = numCols := by
  rcases st with ⟨delta, b⟩
  cases b <;> simp [rowOf, zeroRow, znormalize, rawTrace]

/-! ## Matrix assembly facts -/

lemma stationsRaw_length (seed n k : ℕ) : (stationsRaw seed n k).length = n := by
  simp [stationsRaw]

lemma sortStations_perm (l : List (ℝ × Bool)) : List.Perm (sortStations l) l :=
  List.perm_insertionSort distLE l

lemma sortStations_length (l : List (ℝ × Bool)) :
    (sortStations l).length = l.length :=
  List.length_insertionSort distLE l

lemma generateCore_matrix (n k : ℕ) (d : ℝ) (seed : ℕ) :
    (generateCore n k d seed).matrix =
      (sortStations (stationsRaw seed n k)).map (rowOf d) := rfl

lemma generateCore_depth (n k : ℕ) (d : ℝ) (seed : ℕ) :
    (generateCore n k d seed).depth = d := rfl

lemma generateCore_stations (n k : ℕ) (d : ℝ) (seed : ℕ) :
    (generateCore n k d seed).stations = sortStations (stationsRaw seed n k) := rfl

lemma generateCore_matrix_length (n k : ℕ) (d : ℝ) (seed : ℕ) :
    (generateCore n k d seed).matrix.length = n := by
  rw [generateCore_matrix, List.length_map, sortStations_length,
    stationsRaw_length]

/-- Inversion of a successful `generate_matrix` call: the inputs passed
validation and the output is `generateCore` at the used depth. -/
lemma generate_matrix_ok_inv {n : ℕ} {depth : Option ℝ} {k seed : ℕ}
    {out : GenOutput} (h : generate_matrix n depth k seed = .ok out) :
    1 ≤ n ∧ k < n ∧ out = generateCore n k out.depth seed ∧
      ((∃ d, depth = some d ∧ out.depth = d ∧ 0 ≤ d ∧ d ≤ maxDepth) ∨
        (depth = none ∧ out.depth = drawDepth seed)) := by
  unfold generate_matrix at h
  split at h
  · simp at h
  next hn =>
    split at h
    · simp at h
    next hk =>
      split at h
      next d =>
        split at h
        next hd =>
          obtain rfl := (Except.ok.injEq _ _).mp h.symm
          exact ⟨by omega, by omega, rfl, Or.inl ⟨d, rfl, rfl, hd.1, hd.2⟩⟩
        · simp at h
      next =>
        obtain rfl := (Except.ok.injEq _ _).mp h.symm
        exact ⟨by omega, by omega, rfl, Or.inr ⟨rfl, rfl⟩⟩

/-! ## Dropout counting -/

lemma inactiveIdx_subset {seed n k : ℕ} (hn : 0 < n) :
    inactiveIdx seed n k ⊆ Finset.range n := by
  intro i hi
  obtain ⟨j, _, rfl⟩ := Finset.mem_image.mp hi
  exact Finset.mem_range.mpr (Nat.mod_lt _ hn)

lemma inactiveIdx_card {seed n k : ℕ} (hk : k < n) :
    (inactiveIdx seed n k).card = k := by
  rw [inactiveIdx, Finset.card_image_of_injOn, Finset.card_range]
  intro j1 h1 j2 h2 he
  have h1' := Finset.mem_range.mp (Finset.mem_coe.mp h1)
  have h2' := Finset.mem_range.mp (Finset.mem_coe.mp h2)
  have hmod : j1 % n = j2 % n :=
    Nat.ModEq.add_left_cancel' (seed % n) he
  rwa [Nat.mod_eq_of_lt (by omega), Nat.mod_eq_of_lt (by omega)] at hmod

lemma countP_range (n : ℕ) (p : ℕ → Bool) :
    (List.range n).countP p = ((Finset.range n).filter (fun i => p i = true)).card := by
  induction n with
  | zero => simp
  | succ m ih =>
      rw [List.range_succ, List.countP_append, ih, Finset.range_succ,
        Finset.filter_insert]
      by_cases hp : p m = true
      · rw [if_pos hp, Finset.card_insert_of_not_mem (fun hmem =>
          absurd (Finset.mem_range.mp (Finset.mem_of_mem_filter m hmem))
            (lt_irrefl m))]
        simp [List.countP_cons, hp]
      · rw [if_neg hp]
        simp [List.countP_cons, hp]

lemma countP_range_mem (n : ℕ) (S : Finset ℕ) (hS : S ⊆ Finset.range n) :
    (List.range n).countP (fun i => decide (i ∈ S)) = S.card := by
  rw [countP_range]
  congr 1
  ext i
  simp only [Finset.mem_filter, decide_eq_true_eq, Finset.mem_range]
  exact ⟨fun h => h.2, fun h => ⟨Finset.mem_range.mp (hS h), h⟩⟩

lemma rowOf_eq_zeroRow_iff (d : ℝ) (st : ℝ × Bool) :
    rowOf d st = zeroRow ↔ st.2 = false := by
  rcases st with ⟨delta, b⟩
  cases b
  · simp [rowOf]
  · simp [rowOf, znormalize_rawTrace_ne_zeroRow delta d]

lemma generateCore_count_sentinel {n k : ℕ} (hk : k < n) (d : ℝ) (seed : ℕ) :
    (generateCore n k d seed).matrix.count zeroRow = k := by
  rw [generateCore_matrix, List.count_eq_countP, List.countP_map,
    ((sortStations_perm (stationsRaw seed n k)).countP_eq _), stationsRaw,
    List.countP_map]
  rw [List.countP_congr (q := fun i => decide (i ∈ inactiveIdx seed n k)) ?_]
  · rw [countP_range_mem n _ (inactiveIdx_subset (by omega)), inactiveIdx_card hk]
  · intro i _
    by_cases hi : i ∈ inactiveIdx seed n k
    · simp [Function.comp, rowOf, hi]
    · simp [Function.comp, rowOf, hi, znormalize_rawTrace_ne_zeroRow]

/-! ## Generator claims -/

/-- C2: every matrix returned by `generate_matrix` has exactly
`numStations` rows, each of the fixed column count, regardless of which
depth was drawn or passed. -/
theorem generate_matrix_shape (n : ℕ) (depth : Option ℝ) (k seed : ℕ)
    (out : GenOutput) (h : generate_matrix n depth k seed = .ok out) :
    out.matrix.length = n ∧ ∀ row ∈ out.matrix, row.length = numCols := by
  obtain ⟨_, _, heq, _⟩ := generate_matrix_ok_inv h
  rw [heq]
  refine ⟨generateCore_matrix_length _ _ _ _, ?_⟩
  intro row hrow
  rw [generateCore_matrix] at hrow
  obtain ⟨st, _, rfl⟩ := List.mem_map.mp hrow
  exact rowOf_length _ _

/-- Witness for C2 at the spec scenario: 50 stations, unspecified depth,
no dropout. -/
theorem generate_matrix_shape_witness :
    generate_matrix 50 none 0 0 = .ok (generateCore 50 0 (drawDepth 0) 0) ∧
    ((generateCore 50 0 (drawDepth 0) 0).matrix.length = 50 ∧
     ∀ row ∈ (generateCore 50 0 (drawDepth 0) 0).matrix,
       row.length = numCols) := by
  have h : generate_matrix 50 none 0 0 = .ok (generateCore 50 0 (drawDepth 0) 0) := by
    simp [generate_matrix]
  exact ⟨h, generate_matrix_shape 50 none 0 0 _ h⟩

/-- C3: `generate_matrix` signals an input-validation error when the station
count is below 1, when the dropout count reaches the station count, or when
an explicit depth lies outside the configured bounds — and in every such case
the call returns only an error value, never any (partial) matrix. -/
theorem generate_matrix_validation_errors (n : ℕ) (depth : Option ℝ)
    (k seed : ℕ)
    (h : n = 0 ∨ n ≤ k ∨ ∃ d, depth = some d ∧ (d < 0 ∨ maxDepth < d)) :
    (∃ e, generate_matrix n depth k seed = .error e) ∧
    ∀ out, generate_matrix n depth k seed ≠ .ok out := by
  have herr : ∃ e, generate_matrix n depth k seed = .error e := by
    unfold generate_matrix
    by_cases h1 : n < 1
    · exact ⟨_, by rw [if_pos h1]⟩
    · rw [if_neg h1]
      by_cases h2 : n ≤ k
      · exact ⟨_, by rw [if_pos h2]⟩
      · rw [if_neg h2]
        rcases h with hn | hk | ⟨d, rfl, hd⟩
        · omega
        · omega
        · have h3 : ¬(0 ≤ d ∧ d ≤ maxDepth) := by
            rintro ⟨ha, hb⟩
            rcases hd with hd | hd <;> linarith
          exact ⟨_, by rw [show (match some d with
            | some d => if 0 ≤ d ∧ d ≤ maxDepth
                then Except.ok (generateCore n k d seed)
                else Except.error GenError.invalidDepth
            | none => Except.ok (generateCore n k (drawDepth seed) seed)) =
              (if 0 ≤ d ∧ d ≤ maxDepth
                then Except.ok (generateCore n k d seed)
                else Except.error GenError.invalidDepth) from rfl, if_neg h3]⟩
  refine ⟨herr, ?_⟩
  obtain ⟨e, he⟩ := herr
  intro out hout
  rw [he] at hout
  exact Except.noConfusion hout

/-- Witness for C3 at the spec scenario: dropout 50 with station count 50. -/
theorem generate_matrix_validation_errors_witness :
    ((50 : ℕ) = 0 ∨ (50 : ℕ) ≤ 50 ∨
      ∃ d, (none : Option ℝ) = some d ∧ (d < 0 ∨ maxDepth < d)) ∧
    ((∃ e, generate_matrix 50 none 50 0 = .error e) ∧
     ∀ out, generate_matrix 50 none 50 0 ≠ .ok out) :=
  ⟨Or.inr (Or.inl (by norm_num)),
   generate_matrix_validation_errors 50 none 50 0
     (Or.inr (Or.inl (by norm_num)))⟩

/-- C6: in every matrix returned by `generate_matrix` the station metadata is
sorted by non-decreasing source-to-station distance, and the matrix rows
follow that order one-to-one (row `i` is the row of station `i`). -/
theorem generate_matrix_rows_sorted_by_distance (n : ℕ) (depth : Option ℝ)
    (k seed : ℕ) (out : GenOutput)
    (h : generate_matrix n depth k seed = .ok out) :
    List.Sorted (· ≤ ·) (out.stations.map Prod.fst) ∧
    out.matrix = out.stations.map (rowOf out.depth) := by
  obtain ⟨_, _, heq, _⟩ := generate_matrix_ok_inv h
  constructor
  · rw [heq, generateCore_stations, List.Sorted, List.pairwise_map]
    exact List.sorted_insertionSort distLE _
  · rw [heq]
    rfl

/-- Witness for C6 at the spec scenario: 50 stations, unspecified depth,
no dropout. -/
theorem generate_matrix_rows_sorted_by_distance_witness :
    generate_matrix 50 none 0 1 = .ok (generateCore 50 0 (drawDepth 1) 1) ∧
    (List.Sorted (· ≤ ·)
        ((generateCore 50 0 (drawDepth 1) 1).stations.map Prod.fst) ∧
     (generateCore 50 0 (drawDepth 1) 1).matrix =
       (generateCore 50 0 (drawDepth 1) 1).stations.map
         (rowOf (generateCore 50 0 (drawDepth 1) 1).depth)) := by
  have h : generate_matrix 50 none 0 1 = .ok (generateCore 50 0 (drawDepth 1) 1) := by
    simp [generate_matrix]
  exact ⟨h, generate_matrix_rows_sorted_by_distance 50 none 0 1 _ h⟩

/-- C7: in every matrix returned by `generate_matrix` with dropout count `k`,
exactly `k` rows equal the all-zero inactive sentinel row (the rest are
non-sentinel), and the inactive rows are kept: the matrix still has one row
per station. -/
theorem generate_matrix_dropout_sentinel_count (n : ℕ) (depth : Option ℝ)
    (k seed : ℕ) (out : GenOutput)
    (h : generate_matrix n depth k seed = .ok out) :
    out.matrix.count zeroRow = k ∧ out.matrix.length = n := by
  obtain ⟨_, hk, heq, _⟩ := generate_matrix_ok_inv h
  rw [heq]
  exact ⟨generateCore_count_sentinel hk _ _, generateCore_matrix_length _ _ _ _⟩

/-- Witness for C7 with 3 stations and dropout 1. -/
theorem generate_matrix_dropout_sentinel_count_witness :
    generate_matrix 3 none 1 0 = .ok (generateCore 3 1 (drawDepth 0) 0) ∧
    ((generateCore 3 1 (drawDepth 0) 0).matrix.count zeroRow = 1 ∧
     (generateCore 3 1 (drawDepth 0) 0).matrix.length = 3) := by
  have h : generate_matrix 3 none 1 0 = .ok (generateCore 3 1 (drawDepth 0) 0) := by
    simp [generate_matrix]
  exact ⟨h, generate_matrix_dropout_sentinel_count 3 none 1 0 _ h⟩

/-- C8: every active (non-sentinel) row of a matrix returned by
`generate_matrix` is Z-normalized independently: its sample mean is exactly
`0` and its sample standard deviation exactly `1`. -/
theorem generate_matrix_active_rows_znormalized (n : ℕ) (depth : Option ℝ)
    (k seed : ℕ) (out : GenOutput) (row : List ℝ)
    (h : generate_matrix n depth k seed = .ok out) (hrow : row ∈ out.matrix)
    (hact : row ≠ zeroRow) :
    listMean row = 0 ∧ listStd row = 1 := by
  obtain ⟨_, _, heq, _⟩ := generate_matrix_ok_inv h
  rw [heq, generateCore_matrix] at hrow
  obtain ⟨st, _, rfl⟩ := List.mem_map.mp hrow
  rcases st with ⟨delta, b⟩
  cases b
  · simp [rowOf] at hact
  · have hz := znormalize_mean_std (listStd_rawTrace_ne_zero delta out.depth)
    simpa [rowOf] using hz

/-- Witness for C8 with a single active station. -/
theorem generate_matrix_active_rows_znormalized_witness :
    generate_matrix 1 none 0 0 = .ok (generateCore 1 0 (drawDepth 0) 0) ∧
    znormalize (rawTrace (stationDistance 0 0) (drawDepth 0)) ∈
      (generateCore 1 0 (drawDepth 0) 0).matrix ∧
    znormalize (rawTrace (stationDistance 0 0) (drawDepth 0)) ≠ zeroRow ∧
    (listMean (znormalize (rawTrace (stationDistance 0 0) (drawDepth 0))) = 0 ∧
     listStd (znormalize (rawTrace (stationDistance 0 0) (drawDepth 0))) = 1) := by
  have h : generate_matrix 1 none 0 0 = .ok (generateCore 1 0 (drawDepth 0) 0) := by
    simp [generate_matrix]
  have hmem : znormalize (rawTrace (stationDistance 0 0) (drawDepth 0)) ∈
      (generateCore 1 0 (drawDepth 0) 0).matrix := by
    rw [generateCore_matrix]
    simp [stationsRaw, sortStations, List.insertionSort, List.orderedInsert,
      inactiveIdx, rowOf]
  have hne := znormalize_rawTrace_ne_zeroRow (stationDistance 0 0) (drawDepth 0)
  exact ⟨h, hmem, hne,
    generate_matrix_active_rows_znormalized 1 none 0 0 _ _ h hmem hne⟩

/-! ## Seeded-randomness facts -/

lemma lcg_lt (s : ℕ) : lcg s < 4294967296 := Nat.mod_lt _ (by norm_num)

lemma unit01_nonneg (s : ℕ) : 0 ≤ unit01 s :=
  div_nonneg (Nat.cast_nonneg _) (by norm_num)

lemma unit01_lt_one (s : ℕ) : unit01 s < 1 := by
  rw [unit01, div_lt_one (by norm_num)]
  exact_mod_cast lcg_lt s

/-- Every value of the generator's 32-bit range is reached by some seed: the
LCG step is a bijection modulo `2^32`. -/
lemma lcg_surjective (v : ℕ) (hv : v < 4294967296) : ∃ s, lcg s = v := by
  haveI : NeZero (4294967296 : ℕ) := ⟨by norm_num⟩
  set z : ZMod 4294967296 :=
    4276115653 * ((v : ZMod 4294967296) - 1013904223) with hz
  refine ⟨z.val, ?_⟩
  rw [lcg]
  have h1 : ((1664525 * z.val + 1013904223 : ℕ) : ZMod 4294967296) = v := by
    push_cast
    rw [show ((z.val : ℕ) : ZMod 4294967296) = z from ZMod.natCast_rightInverse z,
      hz]
    have hinv : (1664525 : ZMod 4294967296) * 4276115653 = 1 := by decide
    calc (1664525 : ZMod 4294967296) *
          (4276115653 * ((v : ZMod 4294967296) - 1013904223)) + 1013904223
        = (1664525 * 4276115653) * ((v : ZMod 4294967296) - 1013904223) +
            1013904223 := by ring
      _ = (v : ZMod 4294967296) := by rw [hinv]; ring
  calc (1664525 * z.val + 1013904223) % 4294967296
      = ((1664525 * z.val + 1013904223 : ℕ) : ZMod 4294967296).val :=
        (ZMod.val_natCast _).symm
    _ = ((v : ℕ) : ZMod 4294967296).val := by rw [h1]
    _ = v := ZMod.val_natCast_of_lt hv

/-- C9: with an explicit depth, `generate_matrix` is a pure function of its
inputs and call-scoped seed, so two calls with the same inputs and seed are
identical; with depth unspecified, the depth used is the seed's uniform
variate scaled to the configured bound, it lies within that bound, and every
value of the generator's range is drawn by some seed. -/
theorem generate_matrix_reproducible_uniform_depth (n k : ℕ) (d : ℝ)
    (seed seed' v : ℕ) (hs : seed = seed') (hv : v < 4294967296) :
    generate_matrix n (some d) k seed = generate_matrix n (some d) k seed' ∧
    (∀ out, generate_matrix n none k seed = .ok out →
      out.depth = maxDepth * unit01 seed ∧ 0 ≤ out.depth ∧
        out.depth < maxDepth) ∧
    (∃ s, unit01 s = (v : ℝ) / 4294967296) := by
  refine ⟨by rw [hs], ?_, ?_⟩
  · intro out hout
    obtain ⟨_, _, _, hd⟩ := generate_matrix_ok_inv hout
    rcases hd with ⟨d', hsome, _⟩ | ⟨_, hdep⟩
    · exact absurd hsome (by simp)
    · rw [hdep, drawDepth]
      refine ⟨rfl, ?_, ?_⟩
      · have hu := unit01_nonneg seed
        have hm : (0 : ℝ) ≤ maxDepth := by norm_num [maxDepth]
        exact mul_nonneg hm hu
      · have h1 := unit01_lt_one seed
        have h2 : (0 : ℝ) < maxDepth := by norm_num [maxDepth]
        calc maxDepth * unit01 seed < maxDepth * 1 := by
              exact mul_lt_mul_of_pos_left h1 h2
          _ = maxDepth := mul_one _
  · obtain ⟨s, hs'⟩ := lcg_surjective v hv
    exact ⟨s, by rw [unit01, hs']⟩

/-- Witness for C9 at seed 5 and generator value 12345. -/
theorem generate_matrix_reproducible_uniform_depth_witness :
    (5 : ℕ) = 5 ∧ (12345 : ℕ) < 4294967296 ∧
    (generate_matrix 20 (some 100000) 2 5 =
        generate_matrix 20 (some 100000) 2 5 ∧
     (∀ out, generate_matrix 20 none 2 5 = .ok out →
        out.depth = maxDepth * unit01 5 ∧ 0 ≤ out.depth ∧
          out.depth < maxDepth) ∧
     (∃ s, unit01 s = (12345 : ℝ) / 4294967296)) :=
  ⟨rfl, by norm_num,
   generate_matrix_reproducible_uniform_depth 20 2 100000 5 5 12345 rfl
     (by norm_num)⟩

/-! ## Travel-time properties -/

/-- C1: for every valid depth `d > 0` and every station location, the
depth-phase delays `tpP = pP − P` and `tsP = sP − P` computed by
`travel_times` are nonnegative, and for a fixed epicentral distance (the
same source/station coordinates) both strictly increase with depth. -/
theorem depth_phase_delays_nonneg_strictMono
    (slat slon stlat stlon d d' : ℝ) (hd : 0 < d) (hdd : d < d') :
    0 ≤ tpP slat slon d stlat stlon ∧ 0 ≤ tsP slat slon d stlat stlon ∧
    tpP slat slon d stlat stlon < tpP slat slon d' stlat stlon ∧
    tsP slat slon d stlat stlon < tsP slat slon d' stlat stlon := by
  simp only [tpP_eq, tsP_eq, vP, vS]
  refine ⟨by linarith, by linarith, by linarith, by linarith⟩

/-- Witness for C1 at a concrete geometry and depths 30 km < 60 km. -/
theorem depth_phase_delays_nonneg_strictMono_witness :
    (0 : ℝ) < 30000 ∧ (30000 : ℝ) < 60000 ∧
    (0 ≤ tpP 10 20 30000 30 40 ∧ 0 ≤ tsP 10 20 30000 30 40 ∧
     tpP 10 20 30000 30 40 < tpP 10 20 60000 30 40 ∧
     tsP 10 20 30000 30 40 < tsP 10 20 60000 30 40) :=
  ⟨by norm_num, by norm_num,
   depth_phase_delays_nonneg_strictMono 10 20 30 40 30000 60000 (by norm_num)
     (by norm_num)⟩

/-- C4: at depth `0` the depth-phase delays `tpP` and `tsP` computed by
`travel_times` are exactly `0` (the reflected paths collapse onto the direct
P arrival), and both tend to `0` as the depth tends to `0`. -/
theorem depth_phase_delays_vanish_at_zero_depth
    (slat slon stlat stlon : ℝ) :
    tpP slat slon 0 stlat stlon = 0 ∧ tsP slat slon 0 stlat stlon = 0 ∧
    Filter.Tendsto (fun d => tpP slat slon d stlat stlon) (nhds 0) (nhds 0) ∧
    Filter.Tendsto (fun d => tsP slat slon d stlat stlon) (nhds 0) (nhds 0) := by
  refine ⟨by rw [tpP_eq]; norm_num, by rw [tsP_eq]; norm_num, ?_, ?_⟩
  · simp only [tpP_eq]
    have h := ((continuous_id.div_const vP).add (continuous_id.div_const vP)).tendsto 0
    simpa using h
  · simp only [tsP_eq]
    have h := ((continuous_id.div_const vS).add (continuous_id.div_const vP)).tendsto 0
    simpa using h

/-- C5: at zero epicentral distance (station directly above the source, i.e.
identical coordinates) the epicentral distance is exactly `0` and
`travel_times` returns the well-defined vertical-incidence times
`(d/vP, 3d/vP, d/vS + 2d/vP)` — total real arithmetic, no undefined value. -/
theorem travel_times_zero_distance_welldefined (lat lon d : ℝ) (hd : 0 ≤ d) :
    epicentralDistance lat lon lat lon = 0 ∧
    travel_times lat lon d lat lon =
      (d / vP, d / vP + d / vP + d / vP, d / vS + d / vP + d / vP) := by
  have hdist : epicentralDistance lat lon lat lon = 0 := by
    have h1 : Real.sin lat * Real.sin lat + Real.cos lat * Real.cos lat = 1 := by
      have := Real.sin_sq_add_cos_sq lat
      nlinarith [this]
    simp only [epicentralDistance, sub_self, Real.cos_zero, mul_one, h1,
      Real.arccos_one, mul_zero]
  refine ⟨hdist, ?_⟩
  have hP : P_time 0 d = d / vP := by
    simp only [P_time]
    rw [show (0 : ℝ) ^ 2 + d ^ 2 = d ^ 2 by ring, Real.sqrt_sq hd]
  simp only [travel_times, hdist, travelTimesDist, pP_time, sP_time, hP,
    Prod.mk.injEq]
  refine ⟨trivial, trivial, by ring⟩

/-- Witness for C5 at latitude 0.5 rad, longitude 1 rad, depth 50 km. -/
theorem travel_times_zero_distance_welldefined_witness :
    (0 : ℝ) ≤ 50000 ∧
    (epicentralDistance 0.5 1 0.5 1 = 0 ∧
     travel_times 0.5 1 50000 0.5 1 =
       (50000 / vP, 50000 / vP + 50000 / vP + 50000 / vP,
        50000 / vS + 50000 / vP + 50000 / vP)) :=
  ⟨by norm_num, travel_times_zero_distance_welldefined 0.5 1 50000 (by norm_num)⟩

/-- C10: for every valid (source, station) input with nonnegative depth, the
three times returned by `travel_times` are ordered `P ≤ pP ≤ sP` — the sP
depth phase never arrives before pP, because the up-going leg travels at the
slower S velocity. -/
theorem travel_times_phase_order (slat slon stlat stlon d : ℝ) (hd : 0 ≤ d) :
    (travel_times slat slon d stlat stlon).1 ≤
        (travel_times slat slon d stlat stlon).2.1 ∧
    (travel_times slat slon d stlat stlon).2.1 ≤
        (travel_times slat slon d stlat stlon).2.2 := by
  simp only [travel_times, travelTimesDist, pP_time, sP_time, vP, vS]
  constructor <;> [linarith; linarith]

/-- Witness for C10 at a concrete geometry with depth 12345 m. -/
theorem travel_times_phase_order_witness :
    (0 : ℝ) ≤ 12345 ∧
    ((travel_times 1 2 12345 3 4).1 ≤ (travel_times 1 2 12345 3 4).2.1 ∧
     (travel_times 1 2 12345 3 4).2.1 ≤ (travel_times 1 2 12345 3 4).2.2) :=
  ⟨by norm_num, travel_times_phase_order 1 2 3 4 12345 (by norm_num)⟩

end CDA
